import Mathlib

/-!
Verification development for the proxmin NMF core (proxmin/nmf.py).

The file shallowly embeds the gradient model, the prox compositor, the
adaptive step-size controller Steps_AS and the weight normalization of the
nmf driver. Matrices are Mathlib matrices over the rationals; numpy matrix
multiplication is Matrix multiplication, numpy elementwise multiplication
is entrywise multiplication. The external spectral-norm routine
(utils.get_spectral_norm, not part of this repository slice) is abstracted
as a dimension-polymorphic parameter. Failures of the Python code (reading
the uninitialized None entry of stored, the failing assert in the
constructor, indexing the last element of an empty update order) are made
explicit with Option and Except.
-/

namespace Proxmin

open Matrix

/-- Weighted data residual, from delta_data: the entrywise product of the
weight matrix with A.dot(S) - Y. A scalar numpy weight broadcasts to the
constant matrix. -/
def delta_data {m k n : ℕ} (A : Matrix (Fin m) (Fin k) ℚ) (S : Matrix (Fin k) (Fin n) ℚ)
    (Y W : Matrix (Fin m) (Fin n) ℚ) : Matrix (Fin m) (Fin n) ℚ :=
  fun i j => W i j * ((A * S) i j - Y i j)

/-- Gradient of the likelihood with respect to A, from grad_likelihood_A:
D.dot(S.T) with D the weighted residual. -/
def grad_likelihood_A {m k n : ℕ} (A : Matrix (Fin m) (Fin k) ℚ) (S : Matrix (Fin k) (Fin n) ℚ)
    (Y W : Matrix (Fin m) (Fin n) ℚ) : Matrix (Fin m) (Fin k) ℚ :=
  delta_data A S Y W * Sᵀ

/-- Gradient of the likelihood with respect to S, from grad_likelihood_S:
A.T.dot(D) with D the weighted residual. -/
def grad_likelihood_S {m k n : ℕ} (S : Matrix (Fin k) (Fin n) ℚ) (A : Matrix (Fin m) (Fin k) ℚ)
    (Y W : Matrix (Fin m) (Fin n) ℚ) : Matrix (Fin k) (Fin n) ℚ :=
  Aᵀ * delta_data A S Y W

/-- One proximal gradient step in A, from prox_likelihood_A: the projection
prox_g applied to A minus step times the gradient with respect to A. -/
def prox_likelihood_A {m k n : ℕ} (A : Matrix (Fin m) (Fin k) ℚ) (step : ℚ)
    (S : Matrix (Fin k) (Fin n) ℚ) (Y : Matrix (Fin m) (Fin n) ℚ)
    (prox_g : Matrix (Fin m) (Fin k) ℚ → ℚ → Matrix (Fin m) (Fin k) ℚ)
    (W : Matrix (Fin m) (Fin n) ℚ) : Matrix (Fin m) (Fin k) ℚ :=
  prox_g (A - step • grad_likelihood_A A S Y W) step

/-- One proximal gradient step in S, from prox_likelihood_S. -/
def prox_likelihood_S {m k n : ℕ} (S : Matrix (Fin k) (Fin n) ℚ) (step : ℚ)
    (A : Matrix (Fin m) (Fin k) ℚ) (Y : Matrix (Fin m) (Fin n) ℚ)
    (prox_g : Matrix (Fin k) (Fin n) ℚ → ℚ → Matrix (Fin k) (Fin n) ℚ)
    (W : Matrix (Fin m) (Fin n) ℚ) : Matrix (Fin k) (Fin n) ℚ :=
  prox_g (S - step • grad_likelihood_S S A Y W) step

/-- Modelled from the spec: operators.prox_id, the identity projection of
the operators module (absent from this repository slice), returns its input
unchanged regardless of the step. -/
def prox_id {m k : ℕ} (X : Matrix (Fin m) (Fin k) ℚ) (_step : ℚ) : Matrix (Fin m) (Fin k) ℚ := X

/-- The factor argument X of prox_likelihood: the generic solver passes
Xs of the factor index j, so at runtime X is either an A-shaped or an
S-shaped array. The disjoint sum records the runtime shape. -/
def FactorArg (m k n : ℕ) := Matrix (Fin m) (Fin k) ℚ ⊕ Matrix (Fin k) (Fin n) ℚ

/-- Composed update, from prox_likelihood. The branch on the factor index j
is the Python comparison j == 0, with j an optional integer (None is the
default). A wrongly shaped X reaching a branch is the shape-mismatch
failure of the underlying matrix operations, modelled as none. -/
def prox_likelihood {m k n : ℕ} (X : FactorArg m k n) (step : ℚ)
    (Xs0 : Matrix (Fin m) (Fin k) ℚ) (Xs1 : Matrix (Fin k) (Fin n) ℚ)
    (j : Option ℤ) (Y W : Matrix (Fin m) (Fin n) ℚ)
    (prox_S : Matrix (Fin k) (Fin n) ℚ → ℚ → Matrix (Fin k) (Fin n) ℚ)
    (prox_A : Matrix (Fin m) (Fin k) ℚ → ℚ → Matrix (Fin m) (Fin k) ℚ) :
    Option (FactorArg m k n) :=
  if j = some 0 then
    match X with
    | Sum.inl A => some (Sum.inl (prox_likelihood_A A step Xs1 Y prox_A W))
    | Sum.inr _ => none
  else
    match X with
    | Sum.inr S => some (Sum.inr (prox_likelihood_S S step Xs0 Y prox_S W))
    | Sum.inl _ => none

/-- Type of the external spectral-norm routine utils.get_spectral_norm: a
scalar for a matrix of any shape. It is a parameter of the model; the
controller only multiplies its value by a weight bound. -/
def SpecNorm := (a : ℕ) → (b : ℕ) → Matrix (Fin a) (Fin b) ℚ → ℚ

/-- State of the step-size controller Steps_AS: the configuration fields
set by the constructor and the mutable fields it, stride, last, stored.
The per-factor lists of length two of the Python code are functions on
Fin 2; stored holds none for the Python None placeholder. -/
structure Steps_AS where
  slack : ℚ
  WAmax : ℚ
  WSmax : ℚ
  max_stride : ℕ
  advance_index : ℤ
  it : ℕ
  stride : Fin 2 → ℕ
  last : Fin 2 → ℤ
  stored : Fin 2 → Option ℚ

instance : DecidableEq Steps_AS := fun a b =>
  decidable_of_iff
    (a.slack = b.slack ∧ a.WAmax = b.WAmax ∧ a.WSmax = b.WSmax ∧
     a.max_stride = b.max_stride ∧ a.advance_index = b.advance_index ∧ a.it = b.it ∧
     a.stride = b.stride ∧ a.last = b.last ∧ a.stored = b.stored)
    (by cases a; cases b; simp [Steps_AS.mk.injEq])

/-- Failure modes of the Steps_AS constructor: the assert on slack, and
indexing the last element of an empty update order. -/
inductive InitError where
  | assertFailed : InitError
  | indexError : InitError
  deriving DecidableEq

/-- Constructor of Steps_AS. The assert on slack runs first; then the
optional WAmax and WSmax bounds are resolved from Wmax (the first block
also sets Wmax to 1 when both WAmax and Wmax are missing, which the second
block observes); advance_index is the last element of the update order,
defaulting to 1; the mutable state starts with it = 0, stride = [1,1],
last = [-1,-1] and stored = [None,None]. -/
def Steps_AS.init (slack : ℚ) (Wmax : Option ℚ) (max_stride : ℕ)
    (update_order : Option (List ℤ)) (WAmax WSmax : Option ℚ) :
    Except InitError Steps_AS :=
  if 0 < slack ∧ slack ≤ 1 then
    let WA : ℚ := match WAmax, Wmax with
      | some wa, _ => wa
      | none, some w => w
      | none, none => 1
    let Wmax1 : Option ℚ := match WAmax, Wmax with
      | none, none => some 1
      | _, w => w
    let WS : ℚ := match WSmax, Wmax1 with
      | some ws, _ => ws
      | none, some w => w
      | none, none => 1
    match (match update_order with
           | none => some (1 : ℤ)
           | some l => l.getLast?) with
    | none => Except.error InitError.indexError
    | some ai =>
        Except.ok { slack := slack, WAmax := WA, WSmax := WS,
                    max_stride := max_stride, advance_index := ai,
                    it := 0, stride := fun _ => 1, last := fun _ => -1,
                    stored := fun _ => none }
  else Except.error InitError.assertFailed

/-- Iteration counter after a call with factor index j: incremented by one
exactly when j equals advance_index, in either branch of the call. -/
def advIt (c : Steps_AS) (j : Fin 2) : ℕ :=
  if ((j : ℕ) : ℤ) = c.advance_index then c.it + 1 else c.it

/-- Due-for-recompute test of a call with factor index j: the Python
comparison it >= last[j] + stride[j]. -/
def dueFor (c : Steps_AS) (j : Fin 2) : Prop :=
  c.last j + (c.stride j : ℤ) ≤ (c.it : ℤ)

instance (c : Steps_AS) (j : Fin 2) : Decidable (dueFor c j) := by
  unfold dueFor; infer_instance

/-- Lipschitz bound computed on a recompute, from the branch
if j == 0 of the call: the spectral norm of the transpose of Xs[1] times
WAmax for factor 0, the spectral norm of Xs[0] times WSmax for factor 1. -/
def Lcomp {m k n : ℕ} (sn : SpecNorm) (c : Steps_AS) (j : Fin 2)
    (A : Matrix (Fin m) (Fin k) ℚ) (S : Matrix (Fin k) (Fin n) ℚ) : ℚ :=
  if j = 0 then sn n k Sᵀ * c.WAmax else sn m k A * c.WSmax

/-- Stride growth of the adaptive caching policy, given the previously
stored bound s and the fresh bound L: when the relative error lies
strictly between 0 and the budget (1 - slack)/2, the stride grows by
max 1 (int of budget / rel_error * stride) and is clamped at max_stride;
otherwise it is unchanged. Division on the rationals is total, which
matches the branch decision of the floating-point code: an infinite or
undefined relative error fails the comparison with the budget there and
the guard 0 < rel_error here. -/
def growStride (c : Steps_AS) (j : Fin 2) (s L : ℚ) : ℕ :=
  let rel_error := |s - L| / s
  let budget := (1 - c.slack) / 2
  if rel_error < budget ∧ 0 < rel_error then
    min c.max_stride (c.stride j + max 1 (⌊budget / rel_error * (c.stride j : ℚ)⌋.toNat))
  else c.stride j

/-- Due branch of the controller call, given the freshly computed bound L.
It sets last[j] to the entering iteration counter, advances it when j is
the advance index, reads the previously stored bound for the stride-growth
policy when the advanced counter exceeds 1 and slack is below 1 (a read of
the uninitialized None is the Python TypeError, modelled as none), stores
L, and returns slack / L together with the new state. -/
def Steps_AS.callDue (c : Steps_AS) (j : Fin 2) (L : ℚ) : Option (Steps_AS × ℚ) :=
  let it1 := advIt c j
  if 1 < it1 ∧ c.slack < 1 then
    match c.stored j with
    | none => none
    | some s =>
        some ({ c with it := it1,
                       last := Function.update c.last j (c.it : ℤ),
                       stride := Function.update c.stride j (growStride c j s L),
                       stored := Function.update c.stored j (some L) },
              c.slack / L)
  else
    some ({ c with it := it1,
                   last := Function.update c.last j (c.it : ℤ),
                   stored := Function.update c.stored j (some L) },
          c.slack / L)

/-- One call of the controller, from Steps_AS.__call__: recompute when
due, otherwise only advance the counter as appropriate; the returned step
size is slack divided by the stored bound (a read of the uninitialized
None placeholder is the Python TypeError, modelled as none). -/
def Steps_AS.call {m k n : ℕ} (sn : SpecNorm) (c : Steps_AS) (j : Fin 2)
    (A : Matrix (Fin m) (Fin k) ℚ) (S : Matrix (Fin k) (Fin n) ℚ) :
    Option (Steps_AS × ℚ) :=
  if dueFor c j then
    c.callDue j (Lcomp sn c j A S)
  else
    match c.stored j with
    | none => none
    | some s => some ({ c with it := advIt c j }, c.slack / s)

/-- One input of a call sequence: the factor index and the current pair
of factor matrices at the time of the call. -/
def CallInput (m k n : ℕ) := Fin 2 × Matrix (Fin m) (Fin k) ℚ × Matrix (Fin k) (Fin n) ℚ

/-- Runs a sequence of controller calls, threading the state; a failing
call aborts the run. -/
def runCalls {m k n : ℕ} (sn : SpecNorm) : List (CallInput m k n) → Steps_AS → Option Steps_AS
  | [], c => some c
  | (j, A, S) :: rest, c =>
      match Steps_AS.call sn c j A S with
      | none => none
      | some (c1, _) => runCalls sn rest c1

/-- Maximum entry of a nonempty matrix, the numpy W.max() of the driver. -/
def matMax {a b : ℕ} (W : Matrix (Fin (a + 1)) (Fin (b + 1)) ℚ) : ℚ :=
  Finset.univ.sup' Finset.univ_nonempty (fun p : Fin (a + 1) × Fin (b + 1) => W p.1 p.2)

/-- Weight normalization of the nmf driver: with no weight supplied both
the weight and its bound become the scalar 1 (Sum.inl is the scalar
case); with a weight matrix supplied the weight is kept and the bound is
its maximal entry. -/
def nmf_W_setup {a b : ℕ} (W : Option (Matrix (Fin (a + 1)) (Fin (b + 1)) ℚ)) :
    (ℚ ⊕ Matrix (Fin (a + 1)) (Fin (b + 1)) ℚ) × ℚ :=
  match W with
  | some W => (Sum.inr W, matMax W)
  | none => (Sum.inl 1, 1)

/-- Step controller built by the nmf driver: Steps_AS with the derived
weight bound, the given slack and update order, and all remaining
constructor arguments left at their defaults. -/
def nmf_steps_f {a b : ℕ} (W : Option (Matrix (Fin (a + 1)) (Fin (b + 1)) ℚ))
    (slack : ℚ) (update_order : Option (List ℤ)) : Except InitError Steps_AS :=
  Steps_AS.init slack (some (nmf_W_setup W).2) 100 update_order none none

/-- Spectral-norm stand-in used by the concrete traces of this file: the
top-left entry of the matrix (zero for an empty matrix). Any function of
this type is admissible for the abstract collaborator; this one lets the
traces steer the computed bounds through the matrix arguments. -/
def snEntry : SpecNorm := fun a b =>
  match a, b with
  | _ + 1, _ + 1 => fun M => M 0 0
  | _, _ => fun _ => 0

/-- Constant one-by-one matrix, used by the concrete traces. -/
def mat1 (q : ℚ) : Matrix (Fin 1) (Fin 1) ℚ := fun _ _ => q

/-- Broadcast of the scalar weight 1 (the numpy default) to a constant
matrix. -/
def onesW (m n : ℕ) : Matrix (Fin m) (Fin n) ℚ := fun _ _ => 1

/-- Initialization discipline of the stored bounds: a factor whose bound
was never stored still has its initial last = -1 and stride = 1, so its
next call is due for a recompute. -/
def storedReady (c : Steps_AS) : Prop :=
  ∀ i : Fin 2, c.stored i = none → c.last i = -1 ∧ c.stride i = 1

instance (c : Steps_AS) : Decidable (storedReady c) := by
  unfold storedReady; infer_instance

/-- Stride bounds of the caching policy for both factors. -/
def StrideInv (c : Steps_AS) : Prop :=
  ∀ i : Fin 2, 1 ≤ c.stride i ∧ c.stride i ≤ c.max_stride

instance (c : Steps_AS) : Decidable (StrideInv c) := by
  unfold StrideInv; infer_instance

/-- The next call with factor index j will evaluate the relative-error
expression with the stored bound equal to zero in its denominator: the
call is due, the advanced counter exceeds 1, slack is below 1, and the
stored bound of j is zero. -/
def relErrReadAtZero (c : Steps_AS) (j : Fin 2) : Prop :=
  dueFor c j ∧ 1 < advIt c j ∧ c.slack < 1 ∧ c.stored j = some 0

instance (c : Steps_AS) (j : Fin 2) : Decidable (relErrReadAtZero c j) := by
  unfold relErrReadAtZero; infer_instance

/-- One-by-one matrices used by the concrete traces of the witnesses and
counterexamples. -/
def A1 : Matrix (Fin 1) (Fin 1) ℚ := mat1 1

/-- Second amplitude value of the concrete traces, close enough to A1 that
the relative change stays inside the stride-growth budget. -/
def A98 : Matrix (Fin 1) (Fin 1) ℚ := mat1 (9 / 8)

/-- Source matrix of the concrete traces. -/
def S1 : Matrix (Fin 1) (Fin 1) ℚ := mat1 1

/-- Zero source matrix: its spectral norm is zero, so a recompute of
factor 0 against it stores a zero Lipschitz bound. -/
def S0 : Matrix (Fin 1) (Fin 1) ℚ := mat1 0

deriving instance DecidableEq for Except

/-- Placeholder controller state, used only as the default of getD when
extracting the value of an Option known to be some. -/
def dummyS : Steps_AS :=
  { slack := 0, WAmax := 0, WSmax := 0, max_stride := 0, advance_index := 0,
    it := 0, stride := fun _ => 0, last := fun _ => 0, stored := fun _ => none }

/-- Freshly constructed controller with the default slack of nine tenths,
default bounds and default advance index. -/
def c0d : Steps_AS :=
  { slack := 9 / 10, WAmax := 1, WSmax := 1, max_stride := 100, advance_index := 1,
    it := 0, stride := ![1, 1], last := ![-1, -1], stored := ![none, none] }

/-- State of c0d after one call with factor index 1 on the unit
matrices. -/
def c1d : Steps_AS :=
  { slack := 9 / 10, WAmax := 1, WSmax := 1, max_stride := 100, advance_index := 1,
    it := 1, stride := ![1, 1], last := ![-1, 0], stored := ![none, some 1] }

/-- State of c0d after two calls with factor index 1 on the unit
matrices: the iteration counter has passed 1 while factor 0 was never
recomputed, so the next call with factor index 0 reads the uninitialized
stored bound inside the relative-error computation. -/
def c2c : Steps_AS :=
  { slack := 9 / 10, WAmax := 1, WSmax := 1, max_stride := 100, advance_index := 1,
    it := 2, stride := ![1, 1], last := ![-1, 1], stored := ![none, some 1] }

/-- Freshly constructed controller with slack one half. -/
def c12d0 : Steps_AS :=
  { slack := 1 / 2, WAmax := 1, WSmax := 1, max_stride := 100, advance_index := 1,
    it := 0, stride := ![1, 1], last := ![-1, -1], stored := ![none, none] }

/-- State of c12d0 after one call with factor index 1 on the unit
matrices. -/
def cMid : Steps_AS :=
  { slack := 1 / 2, WAmax := 1, WSmax := 1, max_stride := 100, advance_index := 1,
    it := 1, stride := ![1, 1], last := ![-1, 0], stored := ![none, some 1] }

/-- State of cMid after a due call with factor index 1 whose fresh bound
nine eighths lies inside the stride-growth budget: the stride of factor 1
grew from 1 to 3. -/
def cGrown : Steps_AS :=
  { slack := 1 / 2, WAmax := 1, WSmax := 1, max_stride := 100, advance_index := 1,
    it := 2, stride := ![1, 3], last := ![-1, 1], stored := ![none, some (9 / 8)] }

/-- Controller state produced by the driver construction with the
one-by-one weight matrix of value five, slack one half and no update
order, used by a concrete instantiation below. -/
def cW5 : Steps_AS :=
  { slack := 1 / 2, WAmax := 5, WSmax := 5, max_stride := 100, advance_index := 1,
    it := 0, stride := fun _ => 1, last := fun _ => -1, stored := fun _ => none }

/-- Claim C7: for all conformably shaped A (M by K), S (K by N), Y (M by N)
and W broadcastable to M by N, the residual equals W entrywise times
(A times S minus Y), the gradient with respect to A equals the residual
times the transpose of S, and the gradient with respect to S equals the
transpose of A times the residual; the entrywise sums spell out the two
matrix products. The functions are pure by construction in this model. -/
theorem grad_model_formulas (m k n : ℕ) (A : Matrix (Fin m) (Fin k) ℚ)
    (S : Matrix (Fin k) (Fin n) ℚ) (Y W : Matrix (Fin m) (Fin n) ℚ) :
    (∀ i j, delta_data A S Y W i j = W i j * ((A * S) i j - Y i j)) ∧
    grad_likelihood_A A S Y W = delta_data A S Y W * Sᵀ ∧
    grad_likelihood_S S A Y W = Aᵀ * delta_data A S Y W ∧
    (∀ i p, grad_likelihood_A A S Y W i p = ∑ q, (W i q * ((A * S) i q - Y i q)) * S p q) ∧
    (∀ p j, grad_likelihood_S S A Y W p j = ∑ i, A i p * (W i j * ((A * S) i j - Y i j))) := by
  refine ⟨fun i j => rfl, rfl, rfl, ?_, ?_⟩
  · intro i p
    simp [grad_likelihood_A, delta_data, Matrix.mul_apply, Matrix.transpose_apply]
  · intro p j
    simp [grad_likelihood_S, delta_data, Matrix.mul_apply, Matrix.transpose_apply]

/-- Claim C6: the composed update with j = 0 applies prox_A to the
gradient step in A, the branch for factor 1 applies prox_S to the
gradient step in S, and with the identity projection and unit weight the
update with j = 0 is plain gradient descent on A. -/
theorem prox_likelihood_composition (m k n : ℕ) (A : Matrix (Fin m) (Fin k) ℚ)
    (S : Matrix (Fin k) (Fin n) ℚ) (Y W : Matrix (Fin m) (Fin n) ℚ) (step : ℚ)
    (prox_S : Matrix (Fin k) (Fin n) ℚ → ℚ → Matrix (Fin k) (Fin n) ℚ)
    (prox_A : Matrix (Fin m) (Fin k) ℚ → ℚ → Matrix (Fin m) (Fin k) ℚ) :
    prox_likelihood (Sum.inl A) step A S (some 0) Y W prox_S prox_A
      = some (Sum.inl (prox_A (A - step • grad_likelihood_A A S Y W) step)) ∧
    prox_likelihood (Sum.inr S) step A S (some 1) Y W prox_S prox_A
      = some (Sum.inr (prox_S (S - step • grad_likelihood_S S A Y W) step)) ∧
    prox_likelihood (Sum.inl A) step A S (some 0) Y (onesW m n) prox_id prox_id
      = some (Sum.inl (A - step • grad_likelihood_A A S Y (onesW m n))) := by
  refine ⟨rfl, ?_, rfl⟩
  simp [prox_likelihood, prox_likelihood_S]

/-- Claim C10: the composed update dispatches the A branch only when the
factor index is exactly the integer 0; every other index, the default
None included, is routed to the S branch without any validation of
indices outside zero and one. -/
theorem prox_likelihood_dispatch (j : Option ℤ) (hj : j ≠ some 0) (m k n : ℕ)
    (A : Matrix (Fin m) (Fin k) ℚ) (S : Matrix (Fin k) (Fin n) ℚ)
    (Y W : Matrix (Fin m) (Fin n) ℚ) (step : ℚ)
    (prox_S : Matrix (Fin k) (Fin n) ℚ → ℚ → Matrix (Fin k) (Fin n) ℚ)
    (prox_A : Matrix (Fin m) (Fin k) ℚ → ℚ → Matrix (Fin m) (Fin k) ℚ) :
    prox_likelihood (Sum.inr S) step A S j Y W prox_S prox_A
      = some (Sum.inr (prox_likelihood_S S step A Y prox_S W)) ∧
    prox_likelihood (Sum.inl A) step A S (some 0) Y W prox_S prox_A
      = some (Sum.inl (prox_likelihood_A A step S Y prox_A W)) := by
  refine ⟨?_, rfl⟩
  simp [prox_likelihood, hj]

/-- Witness for the dispatch claim at the default index None and at the
out-of-range index five, on concrete one-by-one inputs. -/
theorem prox_likelihood_dispatch_witness :
    ((none : Option ℤ) ≠ some 0 ∧
      prox_likelihood (Sum.inr S1) 1 A1 S1 none A1 A1 prox_id prox_id
        = some (Sum.inr (prox_likelihood_S S1 1 A1 A1 prox_id A1))) ∧
    ((some 5 : Option ℤ) ≠ some 0 ∧
      prox_likelihood (Sum.inr S1) 1 A1 S1 (some 5) A1 A1 prox_id prox_id
        = some (Sum.inr (prox_likelihood_S S1 1 A1 A1 prox_id A1))) := by
  exact ⟨⟨by decide, (prox_likelihood_dispatch none (by decide) 1 1 1 A1 S1 A1 A1 1 prox_id prox_id).1⟩,
         ⟨by decide, (prox_likelihood_dispatch (some 5) (by decide) 1 1 1 A1 S1 A1 A1 1 prox_id prox_id).1⟩⟩

/-- Claim C8: when no weight is supplied the driver sets both the weight
and its bound to the scalar 1 before building the controller; when a
weight matrix is supplied the driver keeps it and derives its maximal
entry as the bound, which the successfully built controller carries in
both of its per-factor weight bounds. -/
theorem nmf_weight_normalization (a b : ℕ) (W : Matrix (Fin (a + 1)) (Fin (b + 1)) ℚ) :
    nmf_W_setup (none : Option (Matrix (Fin (a + 1)) (Fin (b + 1)) ℚ)) = (Sum.inl 1, 1) ∧
    nmf_W_setup (some W) = (Sum.inr W, matMax W) ∧
    (∀ i j, W i j ≤ matMax W) ∧
    (∃ i j, matMax W = W i j) ∧
    (∀ slack uo c, nmf_steps_f (some W) slack uo = Except.ok c →
        c.WAmax = matMax W ∧ c.WSmax = matMax W) ∧
    (∀ slack uo c,
        nmf_steps_f (none : Option (Matrix (Fin (a + 1)) (Fin (b + 1)) ℚ)) slack uo = Except.ok c →
        c.WAmax = 1 ∧ c.WSmax = 1) := by
  refine ⟨rfl, rfl, ?_, ?_, ?_, ?_⟩
  · intro i j
    exact Finset.le_sup' (fun p : Fin (a + 1) × Fin (b + 1) => W p.1 p.2)
      (Finset.mem_univ (i, j))
  · obtain ⟨p, -, hp⟩ := Finset.exists_mem_eq_sup' (Finset.univ_nonempty)
      (fun p : Fin (a + 1) × Fin (b + 1) => W p.1 p.2)
    exact ⟨p.1, p.2, hp⟩
  · intro slack uo c h
    simp only [nmf_steps_f, nmf_W_setup, Steps_AS.init] at h
    split at h
    · split at h
      · exact absurd h (by simp)
      · rw [Except.ok.injEq] at h
        subst h
        exact ⟨rfl, rfl⟩
    · exact absurd h (by simp)
  · intro slack uo c h
    simp only [nmf_steps_f, nmf_W_setup, Steps_AS.init] at h
    split at h
    · split at h
      · exact absurd h (by simp)
      · rw [Except.ok.injEq] at h
        subst h
        exact ⟨rfl, rfl⟩
    · exact absurd h (by simp)

/-- Witness for the weight normalization claim: the driver construction
with the one-by-one weight matrix of value five succeeds and yields the
controller cW5, whose per-factor bounds both equal the maximal entry. -/
theorem nmf_weight_normalization_witness :
    nmf_steps_f (some (mat1 5)) (1 / 2) none = Except.ok cW5 ∧
    (cW5.WAmax = matMax (mat1 5) ∧ cW5.WSmax = matMax (mat1 5)) := by
  refine ⟨by with_unfolding_all decide, ?_⟩
  exact (nmf_weight_normalization 0 0 (mat1 5)).2.2.2.2.1 (1 / 2) none cW5
    (by with_unfolding_all decide)

/-- Counterexample to claim C9: with slack one half, inside the required
interval, construction still fails when the update order is the empty
list, because the constructor takes its last element. -/
theorem init_empty_update_order_cex :
    (0 < (1 / 2 : ℚ) ∧ (1 / 2 : ℚ) ≤ 1) ∧
    Steps_AS.init (1 / 2) none 100 (some []) none none
      = Except.error InitError.indexError := by
  with_unfolding_all decide

/-- Claim C9 as amended: a slack outside the interval from 0 exclusive to
1 inclusive is rejected eagerly by the precondition check, before
anything else runs; a slack inside the interval passes the check, and
construction then succeeds unless the update order is the empty list. -/
theorem init_slack_precondition (slack : ℚ) (Wm : Option ℚ) (ms : ℕ)
    (uo : Option (List ℤ)) (wa ws : Option ℚ) :
    (¬ (0 < slack ∧ slack ≤ 1) →
        Steps_AS.init slack Wm ms uo wa ws = Except.error InitError.assertFailed) ∧
    ((0 < slack ∧ slack ≤ 1) →
        Steps_AS.init slack Wm ms uo wa ws ≠ Except.error InitError.assertFailed) ∧
    ((0 < slack ∧ slack ≤ 1) → uo ≠ some [] →
        ∃ c, Steps_AS.init slack Wm ms uo wa ws = Except.ok c) := by
  refine ⟨?_, ?_, ?_⟩
  · intro h
    simp only [Steps_AS.init]
    rw [if_neg h]
  · intro h
    simp only [Steps_AS.init]
    rw [if_pos h]
    rcases uo with - | l
    · simp
    · rcases hl : l.getLast? with - | ai <;> simp [hl]
  · intro h hne
    simp only [Steps_AS.init]
    rw [if_pos h]
    rcases uo with - | l
    · exact ⟨_, rfl⟩
    · have hl : l ≠ [] := fun he => hne (by rw [he])
      rcases hx : l.getLast? with - | ai
      · exact absurd (List.getLast?_eq_none_iff.mp hx) hl
      · simp only [hx]
        exact ⟨_, rfl⟩

/-- Witness for the amended precondition claim: slack two is rejected by
the assert, and slack one half with no update order builds a controller. -/
theorem init_slack_precondition_witness :
    Steps_AS.init 2 none 100 none none none = Except.error InitError.assertFailed ∧
    (∃ c, Steps_AS.init (1 / 2) none 100 none none none = Except.ok c) := by
  refine ⟨(init_slack_precondition 2 none 100 none none none).1 ?_, ?_⟩
  · with_unfolding_all decide
  · exact (init_slack_precondition (1 / 2) none 100 none none none).2.2
      (by with_unfolding_all decide) (by decide)

theorem call_due_grow {m k n : ℕ} (sn : SpecNorm) (c : Steps_AS) (j : Fin 2)
    (A : Matrix (Fin m) (Fin k) ℚ) (S : Matrix (Fin k) (Fin n) ℚ)
    (hdue : dueFor c j) (hgrow : 1 < advIt c j ∧ c.slack < 1)
    (s : ℚ) (hs : c.stored j = some s) :
    Steps_AS.call sn c j A S =
      some ({ c with
                it := advIt c j,
                last := Function.update c.last j (c.it : ℤ),
                stride := Function.update c.stride j (growStride c j s (Lcomp sn c j A S)),
                stored := Function.update c.stored j (some (Lcomp sn c j A S)) },
            c.slack / Lcomp sn c j A S) := by
  simp only [Steps_AS.call, Steps_AS.callDue, if_pos hdue, if_pos hgrow, hs]

theorem call_due_nogrow {m k n : ℕ} (sn : SpecNorm) (c : Steps_AS) (j : Fin 2)
    (A : Matrix (Fin m) (Fin k) ℚ) (S : Matrix (Fin k) (Fin n) ℚ)
    (hdue : dueFor c j) (hng : ¬ (1 < advIt c j ∧ c.slack < 1)) :
    Steps_AS.call sn c j A S =
      some ({ c with
                it := advIt c j,
                last := Function.update c.last j (c.it : ℤ),
                stored := Function.update c.stored j (some (Lcomp sn c j A S)) },
            c.slack / Lcomp sn c j A S) := by
  simp only [Steps_AS.call, Steps_AS.callDue, if_pos hdue, if_neg hng]

theorem call_due_crash {m k n : ℕ} (sn : SpecNorm) (c : Steps_AS) (j : Fin 2)
    (A : Matrix (Fin m) (Fin k) ℚ) (S : Matrix (Fin k) (Fin n) ℚ)
    (hdue : dueFor c j) (hgrow : 1 < advIt c j ∧ c.slack < 1)
    (hs : c.stored j = none) :
    Steps_AS.call sn c j A S = none := by
  simp only [Steps_AS.call, Steps_AS.callDue, if_pos hdue, if_pos hgrow, hs]

theorem call_notdue {m k n : ℕ} (sn : SpecNorm) (c : Steps_AS) (j : Fin 2)
    (A : Matrix (Fin m) (Fin k) ℚ) (S : Matrix (Fin k) (Fin n) ℚ)
    (hnd : ¬ dueFor c j) (s : ℚ) (hs : c.stored j = some s) :
    Steps_AS.call sn c j A S = some ({ c with it := advIt c j }, c.slack / s) := by
  simp only [Steps_AS.call, if_neg hnd, hs]

theorem call_notdue_crash {m k n : ℕ} (sn : SpecNorm) (c : Steps_AS) (j : Fin 2)
    (A : Matrix (Fin m) (Fin k) ℚ) (S : Matrix (Fin k) (Fin n) ℚ)
    (hnd : ¬ dueFor c j) (hs : c.stored j = none) :
    Steps_AS.call sn c j A S = none := by
  simp only [Steps_AS.call, if_neg hnd, hs]

theorem call_cases {m k n : ℕ} (sn : SpecNorm) (c : Steps_AS) (j : Fin 2)
    (A : Matrix (Fin m) (Fin k) ℚ) (S : Matrix (Fin k) (Fin n) ℚ)
    (c' : Steps_AS) (r : ℚ) (h : Steps_AS.call sn c j A S = some (c', r)) :
    (dueFor c j ∧ r = c.slack / Lcomp sn c j A S ∧
      ((1 < advIt c j ∧ c.slack < 1 ∧ ∃ s, c.stored j = some s ∧
          c' = { c with
                 it := advIt c j,
                 last := Function.update c.last j (c.it : ℤ),
                 stride := Function.update c.stride j (growStride c j s (Lcomp sn c j A S)),
                 stored := Function.update c.stored j (some (Lcomp sn c j A S)) }) ∨
       (¬ (1 < advIt c j ∧ c.slack < 1) ∧
          c' = { c with
                 it := advIt c j,
                 last := Function.update c.last j (c.it : ℤ),
                 stored := Function.update c.stored j (some (Lcomp sn c j A S)) }))) ∨
    (¬ dueFor c j ∧ ∃ s, c.stored j = some s ∧
        c' = { c with it := advIt c j } ∧ r = c.slack / s) := by
  by_cases hdue : dueFor c j
  · by_cases hgrow : 1 < advIt c j ∧ c.slack < 1
    · rcases hs : c.stored j with - | s
      · rw [call_due_crash sn c j A S hdue hgrow hs] at h
        exact Option.noConfusion h
      · rw [call_due_grow sn c j A S hdue hgrow s hs] at h
        rw [Option.some.injEq, Prod.mk.injEq] at h
        exact Or.inl ⟨hdue, h.2.symm, Or.inl ⟨hgrow.1, hgrow.2, s, rfl, h.1.symm⟩⟩
    · rw [call_due_nogrow sn c j A S hdue hgrow] at h
      rw [Option.some.injEq, Prod.mk.injEq] at h
      exact Or.inl ⟨hdue, h.2.symm, Or.inr ⟨hgrow, h.1.symm⟩⟩
  · rcases hs : c.stored j with - | s
    · rw [call_notdue_crash sn c j A S hdue hs] at h
      exact Option.noConfusion h
    · rw [call_notdue sn c j A S hdue s hs] at h
      rw [Option.some.injEq, Prod.mk.injEq] at h
      exact Or.inr ⟨hdue, s, rfl, h.1.symm, h.2.symm⟩

theorem call_none_cases {m k n : ℕ} (sn : SpecNorm) (c : Steps_AS) (j : Fin 2)
    (A : Matrix (Fin m) (Fin k) ℚ) (S : Matrix (Fin k) (Fin n) ℚ)
    (h : Steps_AS.call sn c j A S = none) :
    c.stored j = none ∧
      (dueFor c j → 1 < advIt c j ∧ c.slack < 1) := by
  by_cases hdue : dueFor c j
  · by_cases hgrow : 1 < advIt c j ∧ c.slack < 1
    · rcases hs : c.stored j with - | s
      · exact ⟨rfl, fun _ => hgrow⟩
      · rw [call_due_grow sn c j A S hdue hgrow s hs] at h
        exact Option.noConfusion h
    · rw [call_due_nogrow sn c j A S hdue hgrow] at h
      exact Option.noConfusion h
  · rcases hs : c.stored j with - | s
    · exact ⟨rfl, fun hd => absurd hd hdue⟩
    · rw [call_notdue sn c j A S hdue s hs] at h
      exact Option.noConfusion h

theorem init_state (slack : ℚ) (Wm : Option ℚ) (ms : ℕ) (uo : Option (List ℤ))
    (wa ws : Option ℚ) (c₀ : Steps_AS)
    (h : Steps_AS.init slack Wm ms uo wa ws = Except.ok c₀) :
    c₀.slack = slack ∧ c₀.max_stride = ms ∧ c₀.it = 0 ∧
    c₀.stride = (fun _ => 1) ∧ c₀.last = (fun _ => -1) ∧ c₀.stored = (fun _ => none) := by
  simp only [Steps_AS.init] at h
  split at h
  · split at h
    · exact absurd h (by simp)
    · rw [Except.ok.injEq] at h
      subst h
      exact ⟨rfl, rfl, rfl, rfl, rfl, rfl⟩
  · exact absurd h (by simp)

theorem option_getD_eq_some {α : Type} (o : Option α) (d v : α) (hs : o.isSome = true)
    (hv : o.getD d = v) : o = some v := by
  rcases o with - | x
  · exact absurd hs (by simp)
  · simpa using hv

theorem except_eq_ok {ε α : Type} (e : Except ε α) (d v : α) (hs : e.toOption.isSome = true)
    (hv : e.toOption.getD d = v) : e = Except.ok v := by
  rcases e with x | x
  · simp [Except.toOption] at hs
  · simp [Except.toOption] at hv
    rw [hv]

theorem advIt_le (c : Steps_AS) (j : Fin 2) : c.it ≤ advIt c j := by
  unfold advIt
  split <;> omega

theorem advIt_le_succ (c : Steps_AS) (j : Fin 2) : advIt c j ≤ c.it + 1 := by
  unfold advIt
  split <;> omega

theorem advIt_eq_succ_iff (c : Steps_AS) (j : Fin 2) :
    advIt c j = c.it + 1 ↔ ((j : ℕ) : ℤ) = c.advance_index := by
  unfold advIt
  split
  case isTrue h => simp [h]
  case isFalse h => simp [h]

theorem call_it {m k n : ℕ} (sn : SpecNorm) (c : Steps_AS) (j : Fin 2)
    (A : Matrix (Fin m) (Fin k) ℚ) (S : Matrix (Fin k) (Fin n) ℚ)
    (c' : Steps_AS) (r : ℚ) (h : Steps_AS.call sn c j A S = some (c', r)) :
    c'.it = advIt c j := by
  rcases call_cases sn c j A S c' r h with ⟨-, -, hc | hc⟩ | ⟨-, s, -, rfl, -⟩
  · obtain ⟨-, -, s, -, rfl⟩ := hc
    rfl
  · obtain ⟨-, rfl⟩ := hc
    rfl
  · rfl

theorem call_preserves {m k n : ℕ} (sn : SpecNorm) (c : Steps_AS) (j : Fin 2)
    (A : Matrix (Fin m) (Fin k) ℚ) (S : Matrix (Fin k) (Fin n) ℚ)
    (c' : Steps_AS) (r : ℚ) (h : Steps_AS.call sn c j A S = some (c', r)) :
    c'.slack = c.slack ∧ c'.advance_index = c.advance_index ∧
    c'.max_stride = c.max_stride ∧ c'.WAmax = c.WAmax ∧ c'.WSmax = c.WSmax := by
  rcases call_cases sn c j A S c' r h with ⟨-, -, hc | hc⟩ | ⟨-, s, -, rfl, -⟩
  · obtain ⟨-, -, s, -, rfl⟩ := hc
    exact ⟨rfl, rfl, rfl, rfl, rfl⟩
  · obtain ⟨-, rfl⟩ := hc
    exact ⟨rfl, rfl, rfl, rfl, rfl⟩
  · exact ⟨rfl, rfl, rfl, rfl, rfl⟩

theorem call_stride_shape {m k n : ℕ} (sn : SpecNorm) (c : Steps_AS) (j : Fin 2)
    (A : Matrix (Fin m) (Fin k) ℚ) (S : Matrix (Fin k) (Fin n) ℚ)
    (c' : Steps_AS) (r : ℚ) (h : Steps_AS.call sn c j A S = some (c', r)) :
    c'.stride = c.stride ∨
      ∃ s, c'.stride = Function.update c.stride j (growStride c j s (Lcomp sn c j A S)) := by
  rcases call_cases sn c j A S c' r h with ⟨-, -, hc | hc⟩ | ⟨-, s, -, rfl, -⟩
  · obtain ⟨-, -, s, -, rfl⟩ := hc
    exact Or.inr ⟨s, rfl⟩
  · obtain ⟨-, rfl⟩ := hc
    exact Or.inl rfl
  · exact Or.inl rfl

theorem growStride_ge (c : Steps_AS) (j : Fin 2) (s L : ℚ)
    (hle : c.stride j ≤ c.max_stride) : c.stride j ≤ growStride c j s L := by
  simp only [growStride]
  split
  · exact le_min hle (Nat.le_add_right _ _)
  · exact le_rfl

theorem growStride_le_max (c : Steps_AS) (j : Fin 2) (s L : ℚ)
    (hle : c.stride j ≤ c.max_stride) : growStride c j s L ≤ c.max_stride := by
  simp only [growStride]
  split
  · exact min_le_left _ _
  · exact hle

theorem growStride_ge_one (c : Steps_AS) (j : Fin 2) (s L : ℚ)
    (h1 : 1 ≤ c.max_stride) (h2 : 1 ≤ c.stride j) : 1 ≤ growStride c j s L := by
  simp only [growStride]
  split
  · exact le_min h1 (le_trans h2 (Nat.le_add_right _ _))
  · exact h2

theorem call_strideInv {m k n : ℕ} (sn : SpecNorm) (c : Steps_AS) (j : Fin 2)
    (A : Matrix (Fin m) (Fin k) ℚ) (S : Matrix (Fin k) (Fin n) ℚ)
    (c' : Steps_AS) (r : ℚ) (h : Steps_AS.call sn c j A S = some (c', r))
    (h1 : 1 ≤ c.max_stride) (hinv : StrideInv c) : StrideInv c' := by
  have hms : c'.max_stride = c.max_stride := (call_preserves sn c j A S c' r h).2.2.1
  rcases call_stride_shape sn c j A S c' r h with he | ⟨s, he⟩
  · intro i
    rw [he, hms]
    exact hinv i
  · intro i
    rw [he, hms]
    rcases eq_or_ne i j with rfl | hne
    · rw [Function.update_same]
      exact ⟨growStride_ge_one c i s _ h1 (hinv i).1, growStride_le_max c i s _ (hinv i).2⟩
    · rw [Function.update_noteq hne]
      exact hinv i

theorem call_stride_mono {m k n : ℕ} (sn : SpecNorm) (c : Steps_AS) (j : Fin 2)
    (A : Matrix (Fin m) (Fin k) ℚ) (S : Matrix (Fin k) (Fin n) ℚ)
    (c' : Steps_AS) (r : ℚ) (h : Steps_AS.call sn c j A S = some (c', r))
    (hle : ∀ i, c.stride i ≤ c.max_stride) : ∀ i, c.stride i ≤ c'.stride i := by
  rcases call_stride_shape sn c j A S c' r h with he | ⟨s, he⟩
  · intro i
    rw [he]
  · intro i
    rw [he]
    rcases eq_or_ne i j with rfl | hne
    · rw [Function.update_same]
      exact growStride_ge c i s _ (hle i)
    · rw [Function.update_noteq hne]

theorem runCalls_strideInv {m k n : ℕ} (sn : SpecNorm) (tr : List (CallInput m k n))
    (c c1 : Steps_AS) (h : runCalls sn tr c = some c1)
    (h1 : 1 ≤ c.max_stride) (hinv : StrideInv c) : StrideInv c1 := by
  induction tr generalizing c with
  | nil =>
      simp only [runCalls, Option.some.injEq] at h
      subst h
      exact hinv
  | cons x rest ih =>
      obtain ⟨j, A, S⟩ := x
      unfold runCalls at h
      rcases hc : Steps_AS.call sn c j A S with - | p
      · rw [hc] at h
        exact Option.noConfusion h
      · rw [hc] at h
        obtain ⟨c2, r⟩ := p
        have hms : c2.max_stride = c.max_stride := (call_preserves sn c j A S c2 r hc).2.2.1
        exact ih c2 h (hms ▸ h1) (call_strideInv sn c j A S c2 r hc h1 hinv)

theorem runCalls_it_mono {m k n : ℕ} (sn : SpecNorm) (tr : List (CallInput m k n))
    (c c1 : Steps_AS) (h : runCalls sn tr c = some c1) : c.it ≤ c1.it := by
  induction tr generalizing c with
  | nil =>
      simp only [runCalls, Option.some.injEq] at h
      subst h
      exact le_rfl
  | cons x rest ih =>
      obtain ⟨j, A, S⟩ := x
      unfold runCalls at h
      rcases hc : Steps_AS.call sn c j A S with - | p
      · rw [hc] at h
        exact Option.noConfusion h
      · rw [hc] at h
        obtain ⟨c2, r⟩ := p
        have h2 : c2.it = advIt c j := call_it sn c j A S c2 r hc
        exact le_trans (le_trans (advIt_le c j) (le_of_eq h2.symm)) (ih c2 h)

theorem storedReady_due (c : Steps_AS) (j : Fin 2) (hr : storedReady c)
    (hs : c.stored j = none) : dueFor c j := by
  obtain ⟨hl, hst⟩ := hr j hs
  unfold dueFor
  rw [hl, hst]
  omega

theorem call_storedReady {m k n : ℕ} (sn : SpecNorm) (c : Steps_AS) (j : Fin 2)
    (A : Matrix (Fin m) (Fin k) ℚ) (S : Matrix (Fin k) (Fin n) ℚ)
    (c' : Steps_AS) (r : ℚ) (h : Steps_AS.call sn c j A S = some (c', r))
    (hr : storedReady c) : storedReady c' := by
  rcases call_cases sn c j A S c' r h with ⟨-, -, hc | hc⟩ | ⟨-, s, -, rfl, -⟩
  · obtain ⟨-, -, s, -, rfl⟩ := hc
    intro i hi
    rcases eq_or_ne i j with rfl | hne
    · rw [show Steps_AS.stored _ i = Function.update c.stored i (some (Lcomp sn c i A S)) i
          from rfl, Function.update_same] at hi
      exact Option.noConfusion hi
    · rw [show Steps_AS.stored _ i = Function.update c.stored j (some (Lcomp sn c j A S)) i
          from rfl, Function.update_noteq hne] at hi
      obtain ⟨hl, hst⟩ := hr i hi
      refine ⟨?_, ?_⟩
      · rw [show Steps_AS.last _ i = Function.update c.last j (c.it : ℤ) i from rfl,
            Function.update_noteq hne]
        exact hl
      · rw [show Steps_AS.stride _ i
            = Function.update c.stride j (growStride c j s (Lcomp sn c j A S)) i from rfl,
            Function.update_noteq hne]
        exact hst
  · obtain ⟨-, rfl⟩ := hc
    intro i hi
    rcases eq_or_ne i j with rfl | hne
    · rw [show Steps_AS.stored _ i = Function.update c.stored i (some (Lcomp sn c i A S)) i
          from rfl, Function.update_same] at hi
      exact Option.noConfusion hi
    · rw [show Steps_AS.stored _ i = Function.update c.stored j (some (Lcomp sn c j A S)) i
          from rfl, Function.update_noteq hne] at hi
      obtain ⟨hl, hst⟩ := hr i hi
      refine ⟨?_, hst⟩
      rw [show Steps_AS.last _ i = Function.update c.last j (c.it : ℤ) i from rfl,
          Function.update_noteq hne]
      exact hl
  · exact hr

/-- Claim C1: a call recomputes exactly when the counter has reached
last[j] + stride[j]; a recompute records the entering counter in last[j]
and stores the spectral norm of the transposed second factor times WAmax
for factor 0, respectively the spectral norm of the first factor times
WSmax for factor 1; outside a recompute the cached fields are untouched;
and the returned step size is always slack divided by the currently
stored bound. -/
theorem step_size_call_contract (m k n : ℕ) (sn : SpecNorm) (c : Steps_AS) (j : Fin 2)
    (A : Matrix (Fin m) (Fin k) ℚ) (S : Matrix (Fin k) (Fin n) ℚ)
    (c' : Steps_AS) (r : ℚ) (h : Steps_AS.call sn c j A S = some (c', r)) :
    (dueFor c j ↔ c.last j + (c.stride j : ℤ) ≤ (c.it : ℤ)) ∧
    (dueFor c j →
      c'.last j = (c.it : ℤ) ∧
      c'.stored j = some (Lcomp sn c j A S) ∧
      (j = 0 → Lcomp sn c j A S = sn n k Sᵀ * c.WAmax) ∧
      (j = 1 → Lcomp sn c j A S = sn m k A * c.WSmax) ∧
      r = c.slack / Lcomp sn c j A S) ∧
    (¬ dueFor c j → c'.last = c.last ∧ c'.stored = c.stored ∧ c'.stride = c.stride) ∧
    (∃ s, c'.stored j = some s ∧ r = c.slack / s) := by
  have hL0 : j = 0 → Lcomp sn c j A S = sn n k Sᵀ * c.WAmax := by
    intro h0
    subst h0
    simp [Lcomp]
  have hL1 : j = 1 → Lcomp sn c j A S = sn m k A * c.WSmax := by
    intro h1
    subst h1
    rw [Lcomp, if_neg (by decide)]
  rcases call_cases sn c j A S c' r h with ⟨hdue, hr, hc | hc⟩ | ⟨hnd, s, hs, rfl, hr⟩
  · obtain ⟨-, -, s, hs, rfl⟩ := hc
    exact ⟨Iff.rfl,
           fun _ => ⟨Function.update_same _ _ _, Function.update_same _ _ _, hL0, hL1, hr⟩,
           fun hnd => absurd hdue hnd,
           ⟨Lcomp sn c j A S, Function.update_same _ _ _, hr⟩⟩
  · obtain ⟨-, rfl⟩ := hc
    exact ⟨Iff.rfl,
           fun _ => ⟨Function.update_same _ _ _, Function.update_same _ _ _, hL0, hL1, hr⟩,
           fun hnd => absurd hdue hnd,
           ⟨Lcomp sn c j A S, Function.update_same _ _ _, hr⟩⟩
  · exact ⟨Iff.rfl, fun hdue => absurd hdue hnd, fun _ => ⟨rfl, rfl, rfl⟩, ⟨s, hs, hr⟩⟩

/-- Witness for the call contract: the first call with factor index 1 of
a freshly constructed controller is due, records the counter, stores the
bound of factor 1 and returns slack divided by it. -/
theorem step_size_call_contract_witness :
    Steps_AS.call snEntry c0d 1 A1 S1 = some (c1d, 9 / 10) ∧ dueFor c0d 1 ∧
    (c1d.last 1 = (c0d.it : ℤ) ∧
     c1d.stored 1 = some (Lcomp snEntry c0d 1 A1 S1) ∧
     ((1 : Fin 2) = 0 → Lcomp snEntry c0d 1 A1 S1 = snEntry 1 1 S1ᵀ * c0d.WAmax) ∧
     ((1 : Fin 2) = 1 → Lcomp snEntry c0d 1 A1 S1 = snEntry 1 1 A1 * c0d.WSmax) ∧
     (9 / 10 : ℚ) = c0d.slack / Lcomp snEntry c0d 1 A1 S1) := by
  have h : Steps_AS.call snEntry c0d 1 A1 S1 = some (c1d, 9 / 10) :=
    option_getD_eq_some _ (dummyS, 0) _ (by with_unfolding_all decide)
      (by with_unfolding_all decide)
  exact ⟨h, by decide,
    (step_size_call_contract 1 1 1 snEntry c0d 1 A1 S1 c1d (9 / 10) h).2.1 (by decide)⟩

/-- Claim C3: across calls the shared counter never decreases, grows by
at most one per call, grows only when the factor index of the call equals
the advance index, always grows on such calls, and the advance index
itself never changes; along any completed call sequence the counter is
monotone. -/
theorem iteration_counter_monotone (m k n : ℕ) (sn : SpecNorm) (c : Steps_AS) (j : Fin 2)
    (A : Matrix (Fin m) (Fin k) ℚ) (S : Matrix (Fin k) (Fin n) ℚ)
    (c' : Steps_AS) (r : ℚ) (h : Steps_AS.call sn c j A S = some (c', r)) :
    c.it ≤ c'.it ∧ c'.it ≤ c.it + 1 ∧
    (c.it < c'.it → ((j : ℕ) : ℤ) = c.advance_index) ∧
    (((j : ℕ) : ℤ) = c.advance_index → c'.it = c.it + 1) ∧
    c'.advance_index = c.advance_index ∧
    (∀ (tr : List (CallInput m k n)) (c1 : Steps_AS),
        runCalls sn tr c = some c1 → c.it ≤ c1.it) := by
  have hit : c'.it = advIt c j := call_it sn c j A S c' r h
  refine ⟨hit ▸ advIt_le c j, hit ▸ advIt_le_succ c j, ?_, ?_,
          (call_preserves sn c j A S c' r h).2.1,
          fun tr c1 h1 => runCalls_it_mono sn tr c c1 h1⟩
  · intro hlt
    rw [hit] at hlt
    by_cases ha : ((j : ℕ) : ℤ) = c.advance_index
    · exact ha
    · simp only [advIt, if_neg ha] at hlt
      omega
  · intro ha
    rw [hit]
    simp only [advIt, if_pos ha]

/-- Witness for the counter claim at the first call with factor index 1
of a freshly constructed controller, which is the advance index. -/
theorem iteration_counter_monotone_witness :
    Steps_AS.call snEntry c0d 1 A1 S1 = some (c1d, 9 / 10) ∧
    c0d.it ≤ c1d.it ∧ c1d.it ≤ c0d.it + 1 ∧
    c1d.it = c0d.it + 1 ∧ c1d.advance_index = c0d.advance_index := by
  have h : Steps_AS.call snEntry c0d 1 A1 S1 = some (c1d, 9 / 10) :=
    option_getD_eq_some _ (dummyS, 0) _ (by with_unfolding_all decide)
      (by with_unfolding_all decide)
  have H := iteration_counter_monotone 1 1 1 snEntry c0d 1 A1 S1 c1d (9 / 10) h
  exact ⟨h, H.1, H.2.1, H.2.2.2.1 (by decide), H.2.2.2.2.1⟩

/-- Counterexample to claim C2: with max_stride set to 0 the stride of
factor 1 is driven from its initial value 1 to 0 by the clamp, so the
invariant that stride stays at least 1 fails on a reachable state. -/
theorem stride_max_zero_cex :
    (((Steps_AS.init (1 / 2) none 0 none none none).toOption.bind
        (fun c => runCalls snEntry [((1 : Fin 2), A1, S1), (1, A98, S1)] c)).map
      (fun c => c.stride 1)) = some 0 := by
  with_unfolding_all decide

/-- Claim C2 as amended, assuming at least 1 for max_stride (every stride
is clamped to max_stride, so a zero bound forces a zero stride): from any
successful construction, every completed call sequence keeps each stride
between 1 and max_stride; a call never decreases any stride as long as the
strides are below the bound; and a due recompute whose relative error lies
strictly between 0 and the budget grows the stride by exactly
max 1 (floor of budget / rel_error * stride) before the clamp at
max_stride. -/
theorem stride_caching_invariants :
    (∀ (slack : ℚ) (Wm : Option ℚ) (ms : ℕ) (uo : Option (List ℤ)) (wa ws : Option ℚ)
        (c₀ : Steps_AS), Steps_AS.init slack Wm ms uo wa ws = Except.ok c₀ → 1 ≤ ms →
        ∀ (m k n : ℕ) (sn : SpecNorm) (tr : List (CallInput m k n)) (c : Steps_AS),
          runCalls sn tr c₀ = some c → ∀ i, 1 ≤ c.stride i ∧ c.stride i ≤ c.max_stride) ∧
    (∀ (m k n : ℕ) (sn : SpecNorm) (c : Steps_AS) (j : Fin 2)
        (A : Matrix (Fin m) (Fin k) ℚ) (S : Matrix (Fin k) (Fin n) ℚ)
        (c' : Steps_AS) (r : ℚ),
        Steps_AS.call sn c j A S = some (c', r) → (∀ i, c.stride i ≤ c.max_stride) →
        ∀ i, c.stride i ≤ c'.stride i) ∧
    (∀ (m k n : ℕ) (sn : SpecNorm) (c : Steps_AS) (j : Fin 2)
        (A : Matrix (Fin m) (Fin k) ℚ) (S : Matrix (Fin k) (Fin n) ℚ)
        (c' : Steps_AS) (r s : ℚ),
        Steps_AS.call sn c j A S = some (c', r) →
        dueFor c j → 1 < advIt c j → c.slack < 1 → c.stored j = some s →
        0 < |s - Lcomp sn c j A S| / s →
        |s - Lcomp sn c j A S| / s < (1 - c.slack) / 2 →
        c'.stride j = min c.max_stride (c.stride j +
          max 1 (⌊(1 - c.slack) / 2 / (|s - Lcomp sn c j A S| / s) * (c.stride j : ℚ)⌋.toNat))) := by
  refine ⟨?_, ?_, ?_⟩
  · intro slack Wm ms uo wa ws c₀ h0 hms m k n sn tr c h
    obtain ⟨-, hmax, -, hstr, -, -⟩ := init_state slack Wm ms uo wa ws c₀ h0
    have hinv : StrideInv c₀ := by
      intro i
      constructor
      · simp [hstr]
      · simp only [hstr, hmax]
        exact hms
    exact fun i => runCalls_strideInv sn tr c₀ c h (by rw [hmax]; exact hms) hinv i
  · intro m k n sn c j A S c' r h hle
    exact call_stride_mono sn c j A S c' r h hle
  · intro m k n sn c j A S c' r s h hdue hit hsl hs hpos hlt
    rw [call_due_grow sn c j A S hdue ⟨hit, hsl⟩ s hs] at h
    rw [Option.some.injEq, Prod.mk.injEq] at h
    obtain ⟨hc, -⟩ := h
    subst hc
    show Function.update c.stride j (growStride c j s (Lcomp sn c j A S)) j = _
    rw [Function.update_same]
    simp only [growStride]
    rw [if_pos ⟨hlt, hpos⟩]

/-- Witness for the amended stride claim on a concrete run with slack one
half: construction succeeds, the two-call sequence ends with both strides
inside the bounds, the second call does not decrease any stride, and its
stride growth is exactly the clamped formula, growing factor 1 from 1
to 3. -/
theorem stride_caching_invariants_witness :
    (Steps_AS.init (1 / 2) none 100 none none none = Except.ok c12d0 ∧
     runCalls snEntry [((1 : Fin 2), A1, S1), (1, A98, S1)] c12d0 = some cGrown ∧
     1 ≤ cGrown.stride 1 ∧ cGrown.stride 1 ≤ cGrown.max_stride) ∧
    (Steps_AS.call snEntry cMid 1 A98 S1 = some (cGrown, 4 / 9) ∧
     cMid.stride 1 ≤ cGrown.stride 1) ∧
    cGrown.stride 1 = min cMid.max_stride (cMid.stride 1 +
      max 1 (⌊(1 - cMid.slack) / 2 / (|1 - Lcomp snEntry cMid 1 A98 S1| / 1)
              * (cMid.stride 1 : ℚ)⌋.toNat)) := by
  have h0 : Steps_AS.init (1 / 2) none 100 none none none = Except.ok c12d0 :=
    except_eq_ok _ dummyS _ (by with_unfolding_all decide) (by with_unfolding_all decide)
  have h1 : runCalls snEntry [((1 : Fin 2), A1, S1), (1, A98, S1)] c12d0 = some cGrown :=
    option_getD_eq_some _ dummyS _ (by with_unfolding_all decide)
      (by with_unfolding_all decide)
  have h2 : Steps_AS.call snEntry cMid 1 A98 S1 = some (cGrown, 4 / 9) :=
    option_getD_eq_some _ (dummyS, 0) _ (by with_unfolding_all decide)
      (by with_unfolding_all decide)
  refine ⟨⟨h0, h1, ?_, ?_⟩, ⟨h2, ?_⟩, ?_⟩
  · exact (stride_caching_invariants.1 (1 / 2) none 100 none none none c12d0 h0 (by decide)
      1 1 1 snEntry _ cGrown h1 1).1
  · exact (stride_caching_invariants.1 (1 / 2) none 100 none none none c12d0 h0 (by decide)
      1 1 1 snEntry _ cGrown h1 1).2
  · exact stride_caching_invariants.2.1 1 1 1 snEntry cMid 1 A98 S1 cGrown (4 / 9) h2
      (by decide) 1
  · exact stride_caching_invariants.2.2 1 1 1 snEntry cMid 1 A98 S1 cGrown (4 / 9) 1 h2
      (by decide) (by decide) (by with_unfolding_all decide) (by with_unfolding_all decide)
      (by with_unfolding_all decide) (by with_unfolding_all decide)

/-- Counterexample to claim C4: after two calls with factor index 1 the
controller is in a state the two-call sequence reaches normally, but the
third call, the first one with factor index 0, crashes: the counter has
already passed 1, so the relative-error computation reads the stored
bound of factor 0 before this first recompute has written it. -/
theorem stored_uninitialized_read_cex :
    ((Steps_AS.init (9 / 10) none 100 none none none).toOption.bind
        (fun c => runCalls snEntry [((1 : Fin 2), A1, S1), (1, A1, S1)] c)).isSome = true ∧
    ((Steps_AS.init (9 / 10) none 100 none none none).toOption.bind
        (fun c => runCalls snEntry [((1 : Fin 2), A1, S1), (1, A1, S1), (0, A1, S1)] c))
      = none := by
  with_unfolding_all decide

/-- Claim C4 as amended: on a fresh controller every first call per factor
is due; the initialization discipline of the stored bounds is preserved by
every successful call; and under it a call can only fail inside the
relative-error computation, with the call due, the advanced counter past
1 and slack below 1 while the stored bound of the called factor is still
uninitialized. In particular the step-size return never reads an
uninitialized stored bound. -/
theorem stored_initialization_contract :
    (∀ (slack : ℚ) (Wm : Option ℚ) (ms : ℕ) (uo : Option (List ℤ)) (wa ws : Option ℚ)
        (c₀ : Steps_AS), Steps_AS.init slack Wm ms uo wa ws = Except.ok c₀ →
        (∀ j : Fin 2, dueFor c₀ j) ∧ storedReady c₀) ∧
    (∀ (m k n : ℕ) (sn : SpecNorm) (c : Steps_AS) (j : Fin 2)
        (A : Matrix (Fin m) (Fin k) ℚ) (S : Matrix (Fin k) (Fin n) ℚ)
        (c' : Steps_AS) (r : ℚ),
        storedReady c → Steps_AS.call sn c j A S = some (c', r) → storedReady c') ∧
    (∀ (m k n : ℕ) (sn : SpecNorm) (c : Steps_AS) (j : Fin 2)
        (A : Matrix (Fin m) (Fin k) ℚ) (S : Matrix (Fin k) (Fin n) ℚ),
        storedReady c → Steps_AS.call sn c j A S = none →
        dueFor c j ∧ 1 < advIt c j ∧ c.slack < 1 ∧ c.stored j = none) := by
  refine ⟨?_, ?_, ?_⟩
  · intro slack Wm ms uo wa ws c₀ h0
    obtain ⟨-, -, hit, hstr, hlast, -⟩ := init_state slack Wm ms uo wa ws c₀ h0
    refine ⟨fun j => ?_, fun i hi => ?_⟩
    · simp [dueFor, hstr, hlast, hit]
    · exact ⟨by rw [hlast], by rw [hstr]⟩
  · intro m k n sn c j A S c' r hr h
    exact call_storedReady sn c j A S c' r h hr
  · intro m k n sn c j A S hr h
    obtain ⟨hs, himp⟩ := call_none_cases sn c j A S h
    have hdue := storedReady_due c j hr hs
    obtain ⟨h1, h2⟩ := himp hdue
    exact ⟨hdue, h1, h2, hs⟩

/-- Witness for the amended initialization claim: the fresh default
controller is due for both factors, and the crashing state reached by two
advance calls satisfies the initialization discipline, so its failing
third call is exactly a relative-error read of the uninitialized bound. -/
theorem stored_initialization_contract_witness :
    (Steps_AS.init (9 / 10) none 100 none none none = Except.ok c0d ∧
     dueFor c0d 0 ∧ dueFor c0d 1) ∧
    (storedReady c2c ∧ Steps_AS.call snEntry c2c 0 A1 S1 = none ∧
     (dueFor c2c 0 ∧ 1 < advIt c2c 0 ∧ c2c.slack < 1 ∧ c2c.stored 0 = none)) := by
  have h0 : Steps_AS.init (9 / 10) none 100 none none none = Except.ok c0d :=
    except_eq_ok _ dummyS _ (by with_unfolding_all decide) (by with_unfolding_all decide)
  have hr : storedReady c2c := by with_unfolding_all decide
  have hn : Steps_AS.call snEntry c2c 0 A1 S1 = none := by with_unfolding_all decide
  have H := (stored_initialization_contract.1 (9 / 10) none 100 none none none c0d h0).1
  exact ⟨⟨h0, H 0, H 1⟩,
         ⟨hr, hn, stored_initialization_contract.2.2 1 1 1 snEntry c2c 0 A1 S1 hr hn⟩⟩

/-- Claim C5: from a fresh controller with slack one half, a recompute of
factor 0 against the zero source matrix stores the bound 0; two further
advance calls leave a reachable state whose next call with factor index 0
is due with the counter past 1 and slack below 1, so it evaluates the
relative error with the stored zero in the denominator; no guard prevents
this, and the call still completes. -/
theorem rel_error_zero_denominator_reachable :
    (((Steps_AS.init (1 / 2) none 100 none none none).toOption.bind
        (fun c => runCalls snEntry [((0 : Fin 2), A1, S0), (1, A1, S0), (1, A1, S0)] c)).map
      (fun c => decide (relErrReadAtZero c 0))) = some true ∧
    ((Steps_AS.init (1 / 2) none 100 none none none).toOption.bind
        (fun c => runCalls snEntry
          [((0 : Fin 2), A1, S0), (1, A1, S0), (1, A1, S0), (0, A1, S0)] c)).isSome
      = true := by
  with_unfolding_all decide

end Proxmin
